import Mathlib

/-!
# Verification of fbpic `cuda_utils.py`

A shallow embedding of the GPU utility kernels of fbpic's `cuda_utils.py`:

* the three element-wise copy kernels (`cuda_copy_2d_to_2d`,
  `cuda_copy_2d_to_1d`, `cuda_copy_1d_to_2d`),
* the two basis-transform kernels (`cuda_rt_to_pm`, `cuda_pm_to_rt`),
* the launch-plan helpers (`cuda_tpb_bpg_1d`, `cuda_tpb_bpg_2d`).

Modelling choices:

* `complex128` values are modelled by exact rational complex numbers
  (`CRat`): the claims under verification are all stated "floating-point
  rounding aside", i.e. about the exact algebra of the kernels.
* A CUDA kernel launch is modelled by running one thread per launch-grid
  index `(iz, ir)` over a shared heap.  Each thread touches only the
  locations of its own element, so any sequential order has the same
  result as the parallel execution; we fold over the launch indices in
  a fixed order and prove value/frame lemmas that are order-independent.
* Buffers are *views* into the heap: a buffer is a map from grid indices
  to heap locations.  Aliased buffers are equal views; distinct storage
  is modelled by views into disjoint parts of the heap.  This makes the
  aliasing contract of `cuda_rt_to_pm` / `cuda_pm_to_rt` expressible.
* Python integer arithmetic in the launch-plan helpers is modelled over
  `ℤ`, and Python's float true-division `x/TPB` by exact division in
  `ℚ` (again "rounding aside"); Python's `int()` truncates toward zero.
-/

/-- Exact complex numbers with rational components: the model of
`complex128` grid values (exact arithmetic, floating-point rounding
aside). -/
structure CRat where
  re : ℚ
  im : ℚ
deriving DecidableEq

instance : Zero CRat := ⟨⟨0, 0⟩⟩

instance : One CRat := ⟨⟨1, 0⟩⟩

instance : Add CRat := ⟨fun x y => ⟨x.re + y.re, x.im + y.im⟩⟩

instance : Sub CRat := ⟨fun x y => ⟨x.re - y.re, x.im - y.im⟩⟩

instance : Neg CRat := ⟨fun x => ⟨-x.re, -x.im⟩⟩

instance : Mul CRat := ⟨fun x y => ⟨x.re * y.re - x.im * y.im, x.re * y.im + x.im * y.re⟩⟩

/-- The imaginary unit, the `1.j` of the Python source. -/
def CRat.I : CRat := ⟨0, 1⟩

/-- The literal `0.5` of the Python source (exact). -/
def chalf : CRat := ⟨1/2, 0⟩

/-! ## Heaps, buffer views and thread execution -/

/-- Point update of a heap: the effect of one array store
`heap[l] = v`. -/
def hwrite {ι α : Type} [DecidableEq ι] (h : ι → α) (l : ι) (v : α) : ι → α :=
  fun x => if x = l then v else h x

/-- The 2-D launch grid: every thread index `(iz, ir)` spawned by a
launch with `gz` threads along the first axis and `gr` along the
second (`gz = BPGx*TPBx`, `gr = BPGy*TPBy`). -/
def launchGrid (gz gr : ℕ) : List (ℕ × ℕ) :=
  (List.range gz) ×ˢ (List.range gr)

/-- Run one thread per index of `L` over a shared heap, in list order.
Each kernel's threads have pairwise disjoint write footprints, so this
order-sensitive fold agrees with the unordered parallel execution. -/
def runThreads {ι α : Type} (step : ℕ → ℕ → (ι → α) → (ι → α))
    (L : List (ℕ × ℕ)) (h : ι → α) : ι → α :=
  L.foldl (fun acc q => step q.1 q.2 acc) h

/-! ## The copy kernels

`Grid2` / `Grid1` are the contents of a 2-D / 1-D `complex128` array,
as a total map from indices to values.  The `Nz Nr` parameters of each
kernel are the pair of extents its guard reads in the source:
`array_in.shape` for `cuda_copy_2d_to_2d`, `array_2d.shape` for
`cuda_copy_2d_to_1d` (where `array_2d` is the input) and for
`cuda_copy_1d_to_2d` (where `array_2d` is the *output*).  `gz gr` are
the numbers of launched threads per dimension. -/

def Grid2 : Type := ℕ × ℕ → CRat

def Grid1 : Type := ℕ → CRat

/-- One thread of `cuda_copy_2d_to_2d` at `cuda.grid(2) = (iz, ir)`:
`if iz < shape0 and ir < shape1: array_out[iz, ir] = array_in[iz, ir]`. -/
def cuda_copy_2d_to_2d_thread (Nz Nr : ℕ) (array_in : Grid2) (iz ir : ℕ)
    (array_out : Grid2) : Grid2 :=
  if iz < Nz ∧ ir < Nr then
    hwrite array_out (iz, ir) (array_in (iz, ir))
  else array_out

/-- The full `cuda_copy_2d_to_2d` launch. -/
def cuda_copy_2d_to_2d (Nz Nr gz gr : ℕ) (array_in : Grid2) (array_out : Grid2) : Grid2 :=
  runThreads (fun iz ir h => cuda_copy_2d_to_2d_thread Nz Nr array_in iz ir h)
    (launchGrid gz gr) array_out

/-- One thread of `cuda_copy_2d_to_1d`:
`if in range: i = iz + shape0*ir; array_1d[i] = array_2d[iz, ir]`. -/
def cuda_copy_2d_to_1d_thread (Nz Nr : ℕ) (array_2d : Grid2) (iz ir : ℕ)
    (array_1d : Grid1) : Grid1 :=
  if iz < Nz ∧ ir < Nr then
    hwrite array_1d (iz + Nz * ir) (array_2d (iz, ir))
  else array_1d

/-- The full `cuda_copy_2d_to_1d` launch. -/
def cuda_copy_2d_to_1d (Nz Nr gz gr : ℕ) (array_2d : Grid2) (array_1d : Grid1) : Grid1 :=
  runThreads (fun iz ir h => cuda_copy_2d_to_1d_thread Nz Nr array_2d iz ir h)
    (launchGrid gz gr) array_1d

/-- One thread of `cuda_copy_1d_to_2d`:
`if in range: i = iz + shape0*ir; array_2d[iz, ir] = array_1d[i]`.
The guard extents `Nz Nr` are `array_2d.shape` — the *destination*. -/
def cuda_copy_1d_to_2d_thread (Nz Nr : ℕ) (array_1d : Grid1) (iz ir : ℕ)
    (array_2d : Grid2) : Grid2 :=
  if iz < Nz ∧ ir < Nr then
    hwrite array_2d (iz, ir) (array_1d (iz + Nz * ir))
  else array_2d

/-- The full `cuda_copy_1d_to_2d` launch. -/
def cuda_copy_1d_to_2d (Nz Nr gz gr : ℕ) (array_1d : Grid1) (array_2d : Grid2) : Grid2 :=
  runThreads (fun iz ir h => cuda_copy_1d_to_2d_thread Nz Nr array_1d iz ir h)
    (launchGrid gz gr) array_2d

/-! ## The basis-transform kernels

These kernels tolerate aliasing between input and output buffers, so
they are modelled over an explicit heap `ι → CRat`.  A buffer is a
*view* `ℕ → ℕ → ι` mapping grid indices to heap locations; aliased
buffers are equal views. -/

/-- One thread of `cuda_rt_to_pm`: read `value_r`, `value_t` into
temporaries, then write
`buffer_p[iz, ir] = 0.5*(value_r - 1.j*value_t)` and
`buffer_m[iz, ir] = 0.5*(value_r + 1.j*value_t)`, in that order. -/
def cuda_rt_to_pm_thread {ι : Type} [DecidableEq ι] (Nz Nr : ℕ)
    (buffer_r buffer_t buffer_p buffer_m : ℕ → ℕ → ι)
    (iz ir : ℕ) (h : ι → CRat) : ι → CRat :=
  if iz < Nz ∧ ir < Nr then
    let value_r := h (buffer_r iz ir)
    let value_t := h (buffer_t iz ir)
    hwrite (hwrite h (buffer_p iz ir) (chalf * (value_r - CRat.I * value_t)))
      (buffer_m iz ir) (chalf * (value_r + CRat.I * value_t))
  else h

/-- The full `cuda_rt_to_pm` launch. -/
def cuda_rt_to_pm {ι : Type} [DecidableEq ι] (Nz Nr gz gr : ℕ)
    (buffer_r buffer_t buffer_p buffer_m : ℕ → ℕ → ι) (h : ι → CRat) : ι → CRat :=
  runThreads
    (fun iz ir h => cuda_rt_to_pm_thread Nz Nr buffer_r buffer_t buffer_p buffer_m iz ir h)
    (launchGrid gz gr) h

/-- One thread of `cuda_pm_to_rt`: read `value_p`, `value_m` into
temporaries, then write `buffer_r[iz, ir] = value_p + value_m` and
`buffer_t[iz, ir] = 1.j*(value_p - value_m)`, in that order. -/
def cuda_pm_to_rt_thread {ι : Type} [DecidableEq ι] (Nz Nr : ℕ)
    (buffer_p buffer_m buffer_r buffer_t : ℕ → ℕ → ι)
    (iz ir : ℕ) (h : ι → CRat) : ι → CRat :=
  if iz < Nz ∧ ir < Nr then
    let value_p := h (buffer_p iz ir)
    let value_m := h (buffer_m iz ir)
    hwrite (hwrite h (buffer_r iz ir) (value_p + value_m))
      (buffer_t iz ir) (CRat.I * (value_p - value_m))
  else h

/-- The full `cuda_pm_to_rt` launch. -/
def cuda_pm_to_rt {ι : Type} [DecidableEq ι] (Nz Nr gz gr : ℕ)
    (buffer_p buffer_m buffer_r buffer_t : ℕ → ℕ → ι) (h : ι → CRat) : ι → CRat :=
  runThreads
    (fun iz ir h => cuda_pm_to_rt_thread Nz Nr buffer_p buffer_m buffer_r buffer_t iz ir h)
    (launchGrid gz gr) h

/-! ## The launch-plan helpers -/

/-- Python's `int(...)` applied to an exact (rational) value: truncation
toward zero. -/
def pyInt (q : ℚ) : ℤ :=
  if 0 ≤ q then ⌊q⌋ else ⌈q⌉

/-- `cuda_tpb_bpg_1d(x, TPB=256) = (BPG, TPB)` with
`BPG = int(x/TPB + 1)`; the float true-division `x/TPB` is modelled by
exact division in `ℚ`. -/
def cuda_tpb_bpg_1d (x : ℤ) (TPB : ℤ := 256) : ℤ × ℤ :=
  (pyInt ((x : ℚ) / (TPB : ℚ) + 1), TPB)

/-- `cuda_tpb_bpg_2d(x, y, TPBx=8, TPBy=8) = ((BPGx, BPGy), (TPBx, TPBy))`
with `BPGx = int(x/TPBx + 1)` and `BPGy = int(y/TPBy + 1)`. -/
def cuda_tpb_bpg_2d (x y : ℤ) (TPBx : ℤ := 8) (TPBy : ℤ := 8) : (ℤ × ℤ) × (ℤ × ℤ) :=
  ((pyInt ((x : ℚ) / (TPBx : ℚ) + 1), pyInt ((y : ℚ) / (TPBy : ℚ) + 1)), (TPBx, TPBy))

/-! ## Characterisation of the basis-transform kernels -/

/-- Disjointness contract for a two-input/two-output kernel over views
`b1 b2` (inputs) and `o1 o2` (outputs): at each in-range element the
two output locations differ, and no thread's output locations collide
with any location (input or output) of a *different* in-range thread.
It holds both for fully distinct storage and for every whole-buffer
aliasing of outputs with inputs (with the two inputs in distinct
storage), which is how the `fbpic` callers use these kernels. -/
def viewsOK {ι : Type} (Nz Nr : ℕ) (b1 b2 o1 o2 : ℕ → ℕ → ι) : Prop :=
  (∀ iz ir, iz < Nz → ir < Nr → o1 iz ir ≠ o2 iz ir) ∧
  (∀ iz ir iz' ir', iz < Nz → ir < Nr → iz' < Nz → ir' < Nr →
    (iz, ir) ≠ (iz', ir') →
    o1 iz' ir' ≠ b1 iz ir ∧ o1 iz' ir' ≠ b2 iz ir ∧
    o1 iz' ir' ≠ o1 iz ir ∧ o1 iz' ir' ≠ o2 iz ir ∧
    o2 iz' ir' ≠ b1 iz ir ∧ o2 iz' ir' ≠ b2 iz ir ∧
    o2 iz' ir' ≠ o1 iz ir ∧ o2 iz' ir' ≠ o2 iz ir)

/-! ## Canonical fully-distinct storage

A concrete heap layout in which the four buffers `r, t, p, m` occupy
pairwise disjoint storage: locations are tagged triples
`(buffer tag, iz, ir)`. -/

/-- Canonical heap location type for four distinct buffers. -/
abbrev Loc4 : Type := ℕ × ℕ × ℕ

/-- Distinct-storage view of `buffer_r`. -/
def bufR : ℕ → ℕ → Loc4 := fun iz ir => (0, iz, ir)

/-- Distinct-storage view of `buffer_t`. -/
def bufT : ℕ → ℕ → Loc4 := fun iz ir => (1, iz, ir)

/-- Distinct-storage view of `buffer_p`. -/
def bufP : ℕ → ℕ → Loc4 := fun iz ir => (2, iz, ir)

/-- Distinct-storage view of `buffer_m`. -/
def bufM : ℕ → ℕ → Loc4 := fun iz ir => (3, iz, ir)

/-! ## Concrete example data from the specification -/

/-- The `Nz=3, Nr=2` example grid `g[iz, ir] = iz + 10*ir`. -/
def gExample : Grid2 := fun q => ⟨(q.1 : ℚ) + 10 * (q.2 : ℚ), 0⟩

/-- The `Nz=2, Nr=2` example state: `r = [[1, 2], [3, 4]]`
(i.e. `r[iz, ir] = 1 + 2*iz + ir`), `t` all zero, `p` and `m`
cleared. -/
def hExample : Loc4 → CRat :=
  fun q => if q.1 = 0 then ⟨1 + 2 * (q.2.1 : ℚ) + (q.2.2 : ℚ), 0⟩ else 0

/-! ## Lemmas -/

@[ext] theorem CRat.ext {x y : CRat} (h1 : x.re = y.re) (h2 : x.im = y.im) : x = y := by
  cases x; cases y; cases h1; cases h2; rfl

@[simp] theorem CRat.add_re (x y : CRat) : (x + y).re = x.re + y.re := rfl

@[simp] theorem CRat.add_im (x y : CRat) : (x + y).im = x.im + y.im := rfl

@[simp] theorem CRat.sub_re (x y : CRat) : (x - y).re = x.re - y.re := rfl

@[simp] theorem CRat.sub_im (x y : CRat) : (x - y).im = x.im - y.im := rfl

@[simp] theorem CRat.mul_re (x y : CRat) : (x * y).re = x.re * y.re - x.im * y.im := rfl

@[simp] theorem CRat.mul_im (x y : CRat) : (x * y).im = x.re * y.im + x.im * y.re := rfl

@[simp] theorem CRat.I_re : CRat.I.re = 0 := rfl

@[simp] theorem CRat.I_im : CRat.I.im = 1 := rfl

@[simp] theorem chalf_re : chalf.re = 1/2 := rfl

@[simp] theorem chalf_im : chalf.im = 0 := rfl

/-- `p + m` recovers `r` when `p, m` were produced by the forward
transform from `r, t`. -/
theorem pm_sum_cancel (a b : CRat) :
    chalf * (a - CRat.I * b) + chalf * (a + CRat.I * b) = a := by
  ext <;> simp <;> ring

/-- `i*(p - m)` recovers `t` when `p, m` were produced by the forward
transform from `r, t`. -/
theorem pm_diff_cancel (a b : CRat) :
    CRat.I * (chalf * (a - CRat.I * b) - chalf * (a + CRat.I * b)) = b := by
  ext <;> simp <;> ring

/-- `0.5*(r - i*t)` recovers `p` when `r, t` were produced by the
inverse transform from `p, m`. -/
theorem rt_p_cancel (a b : CRat) :
    chalf * ((a + b) - CRat.I * (CRat.I * (a - b))) = a := by
  ext <;> simp <;> ring

/-- `0.5*(r + i*t)` recovers `m` when `r, t` were produced by the
inverse transform from `p, m`. -/
theorem rt_m_cancel (a b : CRat) :
    chalf * ((a + b) + CRat.I * (CRat.I * (a - b))) = b := by
  ext <;> simp <;> ring

@[simp] theorem hwrite_same {ι α : Type} [DecidableEq ι] (h : ι → α) (l : ι) (v : α) :
    hwrite h l v l = v := by
  simp [hwrite]

@[simp] theorem hwrite_other {ι α : Type} [DecidableEq ι] (h : ι → α) (l x : ι) (v : α)
    (hx : x ≠ l) : hwrite h l v x = h x := by
  simp [hwrite, hx]

theorem mem_launchGrid {gz gr : ℕ} {q : ℕ × ℕ} :
    q ∈ launchGrid gz gr ↔ q.1 < gz ∧ q.2 < gr := by
  cases q with
  | mk a b => simp [launchGrid, List.mem_product]

theorem launchGrid_nodup (gz gr : ℕ) : (launchGrid gz gr).Nodup :=
  (List.nodup_range gz).product (List.nodup_range gr)

@[simp] theorem runThreads_nil {ι α : Type} (step : ℕ → ℕ → (ι → α) → (ι → α)) (h : ι → α) :
    runThreads step [] h = h := rfl

theorem runThreads_cons {ι α : Type} (step : ℕ → ℕ → (ι → α) → (ι → α))
    (q : ℕ × ℕ) (L : List (ℕ × ℕ)) (h : ι → α) :
    runThreads step (q :: L) h = runThreads step L (step q.1 q.2 h) := rfl

/-- Frame lemma: a location no thread of the launch writes keeps its
initial value. -/
theorem runThreads_frame {ι α : Type} (step : ℕ → ℕ → (ι → α) → (ι → α))
    (L : List (ℕ × ℕ)) (h : ι → α) (l : ι)
    (hfr : ∀ q ∈ L, ∀ h' : ι → α, step q.1 q.2 h' l = h' l) :
    runThreads step L h l = h l := by
  induction L generalizing h with
  | nil => rfl
  | cons q tl ih =>
      rw [runThreads_cons]
      rw [ih (step q.1 q.2 h) (fun p hp h' => hfr p (List.mem_cons_of_mem q hp) h')]
      exact hfr q (List.mem_cons_self q tl) h

/-- Value lemma for a heap-independent write: if thread `q₀` always
stores the fixed value `v` at `l` and every other thread leaves `l`
alone, the launch ends with `v` at `l`. -/
theorem runThreads_write {ι α : Type} (step : ℕ → ℕ → (ι → α) → (ι → α))
    (L : List (ℕ × ℕ)) (h : ι → α) (l : ι) (v : α) (q₀ : ℕ × ℕ)
    (hq : q₀ ∈ L)
    (hwr : ∀ h' : ι → α, step q₀.1 q₀.2 h' l = v)
    (hfr : ∀ q ∈ L, q ≠ q₀ → ∀ h' : ι → α, step q.1 q.2 h' l = h' l) :
    runThreads step L h l = v := by
  induction L generalizing h with
  | nil => cases hq
  | cons q tl ih =>
      rw [runThreads_cons]
      by_cases hmem : q₀ ∈ tl
      · exact ih (step q.1 q.2 h) hmem
          (fun p hp hne h' => hfr p (List.mem_cons_of_mem q hp) hne h')
      · have hq0 : q = q₀ := by
          rcases List.mem_cons.mp hq with h1 | h2
          · exact h1.symm
          · exact absurd h2 hmem
        subst hq0
        rw [runThreads_frame _ tl _ l
          (fun p hp h' => hfr p (List.mem_cons_of_mem q hp)
            (fun he => hmem (he ▸ hp)) h')]
        exact hwr h

/-- Value lemma for a two-output thread that first reads locations
`r₁, r₂` and then writes `l₁, l₂` as functions of those reads (the
temporaries-first pattern of the basis-transform kernels).  The read
locations may alias the written ones inside the thread; other threads
must leave all four locations alone.  The launch list must not repeat
a thread index (true of a real launch grid). -/
theorem runThreads_write_pair {ι α : Type} (step : ℕ → ℕ → (ι → α) → (ι → α))
    (L : List (ℕ × ℕ)) (h : ι → α) (l₁ l₂ r₁ r₂ : ι) (f₁ f₂ : α → α → α)
    (q₀ : ℕ × ℕ) (hnd : L.Nodup) (hq : q₀ ∈ L)
    (hwr : ∀ h' : ι → α, step q₀.1 q₀.2 h' l₁ = f₁ (h' r₁) (h' r₂) ∧
      step q₀.1 q₀.2 h' l₂ = f₂ (h' r₁) (h' r₂))
    (hfr : ∀ q ∈ L, q ≠ q₀ → ∀ h' : ι → α, ∀ l : ι,
      (l = l₁ ∨ l = l₂ ∨ l = r₁ ∨ l = r₂) → step q.1 q.2 h' l = h' l) :
    runThreads step L h l₁ = f₁ (h r₁) (h r₂) ∧
    runThreads step L h l₂ = f₂ (h r₁) (h r₂) := by
  induction L generalizing h with
  | nil => cases hq
  | cons q tl ih =>
      have hndtl : tl.Nodup := (List.nodup_cons.mp hnd).2
      have hqtl : q ∉ tl := (List.nodup_cons.mp hnd).1
      rw [runThreads_cons]
      by_cases hmem : q₀ ∈ tl
      · have hqne : q ≠ q₀ := fun he => hqtl (he ▸ hmem)
        have h1 : step q.1 q.2 h r₁ = h r₁ :=
          hfr q (List.mem_cons_self q tl) hqne h r₁ (by tauto)
        have h2 : step q.1 q.2 h r₂ = h r₂ :=
          hfr q (List.mem_cons_self q tl) hqne h r₂ (by tauto)
        have := ih (step q.1 q.2 h) hndtl hmem
          (fun p hp hne h' l hl => hfr p (List.mem_cons_of_mem q hp) hne h' l hl)
        rw [h1, h2] at this
        exact this
      · have hq0 : q = q₀ := by
          rcases List.mem_cons.mp hq with h1 | h2
          · exact h1.symm
          · exact absurd h2 hmem
        subst hq0
        constructor
        · rw [runThreads_frame _ tl _ l₁
            (fun p hp h' => hfr p (List.mem_cons_of_mem q hp)
              (fun he => hqtl (he ▸ hp)) h' l₁ (by tauto))]
          exact (hwr h).1
        · rw [runThreads_frame _ tl _ l₂
            (fun p hp h' => hfr p (List.mem_cons_of_mem q hp)
              (fun he => hqtl (he ▸ hp)) h' l₂ (by tauto))]
          exact (hwr h).2

/-! ## Characterisation of the copy kernels -/

/-- The flatten map `(iz, ir) with iz < Nz maps-to iz + Nz*ir` is injective. -/
theorem flat_index_inj {Nz iz iz' ir ir' : ℕ} (h1 : iz < Nz) (h2 : iz' < Nz)
    (he : iz + Nz * ir = iz' + Nz * ir') : iz = iz' ∧ ir = ir' := by
  have hz : 0 < Nz := Nat.lt_of_le_of_lt (Nat.zero_le iz) h1
  have hmod : iz = iz' := by
    have := congrArg (fun n => n % Nz) he
    simpa [Nat.add_mul_mod_self_left, Nat.mod_eq_of_lt h1, Nat.mod_eq_of_lt h2] using this
  subst hmod
  refine ⟨rfl, ?_⟩
  have := congrArg (fun n => n / Nz) he
  simpa [Nat.add_mul_div_left _ _ hz, Nat.div_eq_of_lt h1] using this

/-- Valid in-range indices flatten below `Nz*Nr`. -/
theorem flat_index_lt {Nz Nr iz ir : ℕ} (h1 : iz < Nz) (h2 : ir < Nr) :
    iz + Nz * ir < Nz * Nr := by
  calc iz + Nz * ir < Nz + Nz * ir := by omega
  _ = Nz * (ir + 1) := by ring
  _ ≤ Nz * Nr := Nat.mul_le_mul_left Nz h2

/-- `cuda_copy_2d_to_1d` stores `array_2d[iz, ir]` at flat index
`iz + Nz*ir`, for every in-range element reached by the launch. -/
theorem cuda_copy_2d_to_1d_value (Nz Nr gz gr : ℕ) (array_2d : Grid2) (array_1d : Grid1)
    (iz ir : ℕ) (hiz : iz < Nz) (hir : ir < Nr) (hgz : iz < gz) (hgr : ir < gr) :
    cuda_copy_2d_to_1d Nz Nr gz gr array_2d array_1d (iz + Nz * ir) = array_2d (iz, ir) := by
  apply runThreads_write _ _ _ _ _ (iz, ir)
  · exact mem_launchGrid.mpr ⟨hgz, hgr⟩
  · intro h'
    simp [cuda_copy_2d_to_1d_thread, hiz, hir]
  · rintro ⟨iz', ir'⟩ _ hne h'
    simp only [cuda_copy_2d_to_1d_thread]
    by_cases hin : iz' < Nz ∧ ir' < Nr
    · rw [if_pos hin]
      refine hwrite_other _ _ _ _ (fun he => hne ?_)
      obtain ⟨e1, e2⟩ := flat_index_inj hiz hin.1 he
      simp [e1, e2]
    · rw [if_neg hin]

/-- Flat locations at or beyond `Nz*Nr` are never written by
`cuda_copy_2d_to_1d`. -/
theorem cuda_copy_2d_to_1d_frame (Nz Nr gz gr : ℕ) (array_2d : Grid2) (array_1d : Grid1)
    (l : ℕ) (hl : Nz * Nr ≤ l) :
    cuda_copy_2d_to_1d Nz Nr gz gr array_2d array_1d l = array_1d l := by
  apply runThreads_frame
  rintro ⟨iz, ir⟩ _ h'
  simp only [cuda_copy_2d_to_1d_thread]
  by_cases hin : iz < Nz ∧ ir < Nr
  · rw [if_pos hin]
    refine hwrite_other _ _ _ _ (fun he => ?_)
    have := flat_index_lt hin.1 hin.2
    omega
  · rw [if_neg hin]

/-- `cuda_copy_1d_to_2d` stores `array_1d[iz + Nz*ir]` at `(iz, ir)`,
for every in-range element reached by the launch. -/
theorem cuda_copy_1d_to_2d_value (Nz Nr gz gr : ℕ) (array_1d : Grid1) (array_2d : Grid2)
    (iz ir : ℕ) (hiz : iz < Nz) (hir : ir < Nr) (hgz : iz < gz) (hgr : ir < gr) :
    cuda_copy_1d_to_2d Nz Nr gz gr array_1d array_2d (iz, ir) = array_1d (iz + Nz * ir) := by
  apply runThreads_write _ _ _ _ _ (iz, ir)
  · exact mem_launchGrid.mpr ⟨hgz, hgr⟩
  · intro h'
    simp [cuda_copy_1d_to_2d_thread, hiz, hir]
  · rintro ⟨iz', ir'⟩ _ hne h'
    simp only [cuda_copy_1d_to_2d_thread]
    by_cases hin : iz' < Nz ∧ ir' < Nr
    · rw [if_pos hin]
      exact hwrite_other _ _ _ _ (fun he => hne (by simpa using he.symm))
    · rw [if_neg hin]

/-- Grid positions outside the guarded extents are never written by
`cuda_copy_1d_to_2d`. -/
theorem cuda_copy_1d_to_2d_frame (Nz Nr gz gr : ℕ) (array_1d : Grid1) (array_2d : Grid2)
    (iz ir : ℕ) (hout : ¬(iz < Nz ∧ ir < Nr)) :
    cuda_copy_1d_to_2d Nz Nr gz gr array_1d array_2d (iz, ir) = array_2d (iz, ir) := by
  apply runThreads_frame
  rintro ⟨iz', ir'⟩ _ h'
  simp only [cuda_copy_1d_to_2d_thread]
  by_cases hin : iz' < Nz ∧ ir' < Nr
  · rw [if_pos hin]
    refine hwrite_other _ _ _ _ (fun he => hout ?_)
    obtain ⟨e1, e2⟩ := Prod.ext_iff.mp he
    have e1' : iz = iz' := e1
    have e2' : ir = ir' := e2
    exact ⟨e1' ▸ hin.1, e2' ▸ hin.2⟩
  · rw [if_neg hin]

/-- Value of a full `cuda_rt_to_pm` launch at the output locations of
any in-range element, in terms of the *initial* heap: exactly the
per-element formulas `p = 0.5*(r - i*t)`, `m = 0.5*(r + i*t)`. -/
theorem cuda_rt_to_pm_run_spec {ι : Type} [DecidableEq ι] (Nz Nr gz gr : ℕ)
    (br bt bp bm : ℕ → ℕ → ι) (h : ι → CRat)
    (hok : viewsOK Nz Nr br bt bp bm)
    (iz ir : ℕ) (hiz : iz < Nz) (hir : ir < Nr) (hgz : Nz ≤ gz) (hgr : Nr ≤ gr) :
    cuda_rt_to_pm Nz Nr gz gr br bt bp bm h (bp iz ir) =
      chalf * (h (br iz ir) - CRat.I * h (bt iz ir)) ∧
    cuda_rt_to_pm Nz Nr gz gr br bt bp bm h (bm iz ir) =
      chalf * (h (br iz ir) + CRat.I * h (bt iz ir)) := by
  apply runThreads_write_pair _ _ _ _ _ (br iz ir) (bt iz ir)
    (fun a b => chalf * (a - CRat.I * b)) (fun a b => chalf * (a + CRat.I * b)) (iz, ir)
    (launchGrid_nodup gz gr)
    (mem_launchGrid.mpr ⟨Nat.lt_of_lt_of_le hiz hgz, Nat.lt_of_lt_of_le hir hgr⟩)
  · intro h'
    have hpm := hok.1 iz ir hiz hir
    constructor <;> simp [cuda_rt_to_pm_thread, hiz, hir, hwrite, hpm]
  · rintro ⟨iz', ir'⟩ hq hne h' l hl
    simp only [cuda_rt_to_pm_thread]
    by_cases hin : iz' < Nz ∧ ir' < Nr
    · rw [if_pos hin]
      have hne' : (iz, ir) ≠ (iz', ir') := fun he => hne he.symm
      obtain ⟨d1, d2, d3, d4, d5, d6, d7, d8⟩ :=
        hok.2 iz ir iz' ir' hiz hir hin.1 hin.2 hne'
      rcases hl with rfl | rfl | rfl | rfl
      · simp [hwrite, d3.symm, d7.symm]
      · simp [hwrite, d4.symm, d8.symm]
      · simp [hwrite, d1.symm, d5.symm]
      · simp [hwrite, d2.symm, d6.symm]
    · rw [if_neg hin]

/-- Value of a full `cuda_pm_to_rt` launch at the output locations of
any in-range element, in terms of the initial heap: exactly the
per-element formulas `r = p + m`, `t = i*(p - m)`. -/
theorem cuda_pm_to_rt_run_spec {ι : Type} [DecidableEq ι] (Nz Nr gz gr : ℕ)
    (bp bm br bt : ℕ → ℕ → ι) (h : ι → CRat)
    (hok : viewsOK Nz Nr bp bm br bt)
    (iz ir : ℕ) (hiz : iz < Nz) (hir : ir < Nr) (hgz : Nz ≤ gz) (hgr : Nr ≤ gr) :
    cuda_pm_to_rt Nz Nr gz gr bp bm br bt h (br iz ir) =
      h (bp iz ir) + h (bm iz ir) ∧
    cuda_pm_to_rt Nz Nr gz gr bp bm br bt h (bt iz ir) =
      CRat.I * (h (bp iz ir) - h (bm iz ir)) := by
  apply runThreads_write_pair _ _ _ _ _ (bp iz ir) (bm iz ir)
    (fun a b => a + b) (fun a b => CRat.I * (a - b)) (iz, ir)
    (launchGrid_nodup gz gr)
    (mem_launchGrid.mpr ⟨Nat.lt_of_lt_of_le hiz hgz, Nat.lt_of_lt_of_le hir hgr⟩)
  · intro h'
    have hrt := hok.1 iz ir hiz hir
    constructor <;> simp [cuda_pm_to_rt_thread, hiz, hir, hwrite, hrt]
  · rintro ⟨iz', ir'⟩ hq hne h' l hl
    simp only [cuda_pm_to_rt_thread]
    by_cases hin : iz' < Nz ∧ ir' < Nr
    · rw [if_pos hin]
      have hne' : (iz, ir) ≠ (iz', ir') := fun he => hne he.symm
      obtain ⟨d1, d2, d3, d4, d5, d6, d7, d8⟩ :=
        hok.2 iz ir iz' ir' hiz hir hin.1 hin.2 hne'
      rcases hl with rfl | rfl | rfl | rfl
      · simp [hwrite, d3.symm, d7.symm]
      · simp [hwrite, d4.symm, d8.symm]
      · simp [hwrite, d1.symm, d5.symm]
      · simp [hwrite, d2.symm, d6.symm]
    · rw [if_neg hin]

/-- Locations written by no in-range thread of `cuda_rt_to_pm` keep
their initial value. -/
theorem cuda_rt_to_pm_run_frame {ι : Type} [DecidableEq ι] (Nz Nr gz gr : ℕ)
    (br bt bp bm : ℕ → ℕ → ι) (h : ι → CRat) (l : ι)
    (hl : ∀ iz ir, iz < Nz → ir < Nr → l ≠ bp iz ir ∧ l ≠ bm iz ir) :
    cuda_rt_to_pm Nz Nr gz gr br bt bp bm h l = h l := by
  apply runThreads_frame
  rintro ⟨iz, ir⟩ _ h'
  simp only [cuda_rt_to_pm_thread]
  by_cases hin : iz < Nz ∧ ir < Nr
  · rw [if_pos hin]
    obtain ⟨h1, h2⟩ := hl iz ir hin.1 hin.2
    simp [hwrite, h1, h2]
  · rw [if_neg hin]

/-- The canonical four-buffer layout satisfies the disjointness
contract with `r, t` as inputs and `p, m` as outputs. -/
theorem viewsOK_canonical_rtpm (Nz Nr : ℕ) : viewsOK Nz Nr bufR bufT bufP bufM := by
  constructor
  · intro iz ir _ _
    simp [bufP, bufM, Prod.ext_iff]
  · intro iz ir iz' ir' _ _ _ _ hne
    have hne2 : ¬(iz' = iz ∧ ir' = ir) := by
      intro hc
      exact hne (by simp [hc.1, hc.2])
    refine ⟨?_, ?_, ?_, ?_, ?_, ?_, ?_, ?_⟩ <;>
      simp [bufR, bufT, bufP, bufM, Prod.ext_iff] <;> tauto

/-- The canonical four-buffer layout satisfies the disjointness
contract with `p, m` as inputs and `r, t` as outputs. -/
theorem viewsOK_canonical_pmrt (Nz Nr : ℕ) : viewsOK Nz Nr bufP bufM bufR bufT := by
  constructor
  · intro iz ir _ _
    simp [bufR, bufT, Prod.ext_iff]
  · intro iz ir iz' ir' _ _ _ _ hne
    have hne2 : ¬(iz' = iz ∧ ir' = ir) := by
      intro hc
      exact hne (by simp [hc.1, hc.2])
    refine ⟨?_, ?_, ?_, ?_, ?_, ?_, ?_, ?_⟩ <;>
      simp [bufR, bufT, bufP, bufM, Prod.ext_iff] <;> tauto

/-! ## Arithmetic of the launch-plan helpers -/

/-- For a nonnegative extent and positive group size, Python's
`int(x/TPB + 1)` is `floor(x/TPB) + 1`. -/
theorem pyInt_plan_formula {x T : ℤ} (hx : 0 ≤ x) (hT : 0 < T) :
    pyInt ((x : ℚ) / (T : ℚ) + 1) = ⌊(x : ℚ) / (T : ℚ)⌋ + 1 := by
  have hT' : (0 : ℚ) < (T : ℚ) := by exact_mod_cast hT
  have hq : (0 : ℚ) ≤ (x : ℚ) / (T : ℚ) :=
    div_nonneg (by exact_mod_cast hx) (le_of_lt hT')
  rw [pyInt, if_pos (by linarith)]
  exact_mod_cast Int.floor_add_one ((x : ℚ) / (T : ℚ))

/-- For a nonnegative extent and positive group size, the planned
group count strictly over-covers: `int(x/TPB + 1) * TPB > x`. -/
theorem pyInt_plan_over_covers {x T : ℤ} (hx : 0 ≤ x) (hT : 0 < T) :
    x < pyInt ((x : ℚ) / (T : ℚ) + 1) * T := by
  rw [pyInt_plan_formula hx hT]
  have hT' : (0 : ℚ) < (T : ℚ) := by exact_mod_cast hT
  have h1 : (x : ℚ) / (T : ℚ) < ⌊(x : ℚ) / (T : ℚ)⌋ + 1 :=
    Int.lt_floor_add_one _
  rw [div_lt_iff₀ hT'] at h1
  exact_mod_cast h1

/-- `pyInt` is the identity on integers. -/
theorem pyInt_intCast (n : ℤ) : pyInt ((n : ℤ) : ℚ) = n := by
  rw [pyInt]
  split
  · exact Int.floor_intCast n
  · exact Int.ceil_intCast n

/-- `pyInt` of a value in `[0, 1)` is `0`. -/
theorem pyInt_eq_zero {q : ℚ} (h0 : 0 ≤ q) (h1 : q < 1) : pyInt q = 0 := by
  rw [pyInt, if_pos h0]
  exact Int.floor_eq_zero_iff.mpr ⟨h0, h1⟩

/-! ## C4, C5, C7: the launch-plan claims -/

/-- C4: for every extent `x, y ≥ 0` and group size `TPB, TPBx, TPBy > 0`,
the plans returned by `cuda_tpb_bpg_1d` and (per dimension)
`cuda_tpb_bpg_2d` satisfy `groupCount * groupSize > extent` strictly:
the launch always over-covers the index space. -/
theorem cuda_tpb_bpg_over_covers (x y TPB TPBx TPBy : ℤ)
    (hx : 0 ≤ x) (hy : 0 ≤ y) (hT : 0 < TPB) (hTx : 0 < TPBx) (hTy : 0 < TPBy) :
    x < (cuda_tpb_bpg_1d x TPB).1 * (cuda_tpb_bpg_1d x TPB).2 ∧
    x < (cuda_tpb_bpg_2d x y TPBx TPBy).1.1 * (cuda_tpb_bpg_2d x y TPBx TPBy).2.1 ∧
    y < (cuda_tpb_bpg_2d x y TPBx TPBy).1.2 * (cuda_tpb_bpg_2d x y TPBx TPBy).2.2 :=
  ⟨pyInt_plan_over_covers hx hT, pyInt_plan_over_covers hx hTx,
    pyInt_plan_over_covers hy hTy⟩

/-- Witness for C4 at `x = 5, y = 7, TPB = 256, TPBx = TPBy = 8`. -/
theorem cuda_tpb_bpg_over_covers_witness :
    (5 : ℤ) < (cuda_tpb_bpg_1d 5 256).1 * (cuda_tpb_bpg_1d 5 256).2 ∧
    (5 : ℤ) < (cuda_tpb_bpg_2d 5 7 8 8).1.1 * (cuda_tpb_bpg_2d 5 7 8 8).2.1 ∧
    (7 : ℤ) < (cuda_tpb_bpg_2d 5 7 8 8).1.2 * (cuda_tpb_bpg_2d 5 7 8 8).2.2 :=
  cuda_tpb_bpg_over_covers 5 7 256 8 8 (by norm_num) (by norm_num) (by norm_num)
    (by norm_num) (by norm_num)

/-- C5 (counterexample): the claim says every extent `≤ 0` yields a
group count of `1`, but `cuda_tpb_bpg_1d(-1, 256)` returns a group
count of `int(-1/256 + 1) = int(255/256) = 0`, not `1`. -/
theorem cuda_tpb_bpg_1d_neg_extent_counterexample :
    (cuda_tpb_bpg_1d (-1) 256).1 = 0 ∧ (cuda_tpb_bpg_1d (-1) 256).1 ≠ 1 := by
  have h0 : (cuda_tpb_bpg_1d (-1) 256).1 = 0 := by
    show pyInt (((-1 : ℤ) : ℚ) / ((256 : ℤ) : ℚ) + 1) = 0
    rw [show (((-1 : ℤ) : ℚ) / ((256 : ℤ) : ℚ) + 1) = 255/256 by norm_num]
    exact pyInt_eq_zero (by norm_num) (by norm_num)
  exact ⟨h0, by rw [h0]; decide⟩

/-- C5 (amended): a zero extent (with any positive group size) yields
group count `1`, a degenerate but well-defined plan; `cuda_tpb_bpg_1d`
is total, so no input is an error condition.  (Negative extents,
however, yield group counts `≤ 0`, not `1`.) -/
theorem cuda_tpb_bpg_1d_zero_extent (TPB : ℤ) (hT : 0 < TPB) :
    (cuda_tpb_bpg_1d 0 TPB).1 = 1 := by
  show pyInt (((0 : ℤ) : ℚ) / ((TPB : ℤ) : ℚ) + 1) = 1
  rw [show ((0 : ℤ) : ℚ) / ((TPB : ℤ) : ℚ) + 1 = ((1 : ℤ) : ℚ) by norm_num]
  exact pyInt_intCast 1

/-- Witness for the amended C5 at `TPB = 256`. -/
theorem cuda_tpb_bpg_1d_zero_extent_witness :
    (0 : ℤ) < 256 ∧ (cuda_tpb_bpg_1d 0 256).1 = 1 :=
  ⟨by norm_num, cuda_tpb_bpg_1d_zero_extent 256 (by norm_num)⟩

/-- C7: for every extent `≥ 0` and group size `> 0`, the group count of
`cuda_tpb_bpg_1d` (and of each dimension of `cuda_tpb_bpg_2d`) is
exactly `floor(extent/groupSize) + 1`; in particular an extent of `256`
with group size `256` yields `2` groups, one more than the minimum
needed. -/
theorem cuda_tpb_bpg_formula (x y TPB TPBx TPBy : ℤ)
    (hx : 0 ≤ x) (hy : 0 ≤ y) (hT : 0 < TPB) (hTx : 0 < TPBx) (hTy : 0 < TPBy) :
    (cuda_tpb_bpg_1d x TPB).1 = ⌊(x : ℚ) / (TPB : ℚ)⌋ + 1 ∧
    (cuda_tpb_bpg_2d x y TPBx TPBy).1.1 = ⌊(x : ℚ) / (TPBx : ℚ)⌋ + 1 ∧
    (cuda_tpb_bpg_2d x y TPBx TPBy).1.2 = ⌊(y : ℚ) / (TPBy : ℚ)⌋ + 1 ∧
    (cuda_tpb_bpg_1d 256 256).1 = 2 := by
  refine ⟨pyInt_plan_formula hx hT, pyInt_plan_formula hx hTx,
    pyInt_plan_formula hy hTy, ?_⟩
  show pyInt (((256 : ℤ) : ℚ) / ((256 : ℤ) : ℚ) + 1) = 2
  rw [show ((256 : ℤ) : ℚ) / ((256 : ℤ) : ℚ) + 1 = ((2 : ℤ) : ℚ) by norm_num]
  exact pyInt_intCast 2

/-- Witness for C7 at `x = 5, y = 7, TPB = 256, TPBx = TPBy = 8`. -/
theorem cuda_tpb_bpg_formula_witness :
    (cuda_tpb_bpg_1d 5 256).1 = ⌊(5 : ℚ) / (256 : ℚ)⌋ + 1 ∧
    (cuda_tpb_bpg_2d 5 7 8 8).1.1 = ⌊(5 : ℚ) / (8 : ℚ)⌋ + 1 ∧
    (cuda_tpb_bpg_2d 5 7 8 8).1.2 = ⌊(7 : ℚ) / (8 : ℚ)⌋ + 1 ∧
    (cuda_tpb_bpg_1d 256 256).1 = 2 := by
  have := cuda_tpb_bpg_formula 5 7 256 8 8 (by norm_num) (by norm_num)
    (by norm_num) (by norm_num) (by norm_num)
  exact_mod_cast this

/-! ## C3, C8: the layout-conversion claims -/

/-- C3: for every grid of shape `Nz×Nr` (with a launch covering the
grid), packing with `cuda_copy_2d_to_1d` and then unpacking with
`cuda_copy_1d_to_2d` reproduces the grid exactly, element for element,
whatever the initial contents of the flat buffer and of the output
grid. -/
theorem cuda_copy_layout_roundtrip (Nz Nr gz gr : ℕ) (hgz : Nz ≤ gz) (hgr : Nr ≤ gr)
    (g : Grid2) (flat0 : Grid1) (g0 : Grid2) (iz ir : ℕ) (hiz : iz < Nz) (hir : ir < Nr) :
    cuda_copy_1d_to_2d Nz Nr gz gr (cuda_copy_2d_to_1d Nz Nr gz gr g flat0) g0 (iz, ir)
      = g (iz, ir) := by
  rw [cuda_copy_1d_to_2d_value Nz Nr gz gr _ g0 iz ir hiz hir
    (Nat.lt_of_lt_of_le hiz hgz) (Nat.lt_of_lt_of_le hir hgr)]
  exact cuda_copy_2d_to_1d_value Nz Nr gz gr g flat0 iz ir hiz hir
    (Nat.lt_of_lt_of_le hiz hgz) (Nat.lt_of_lt_of_le hir hgr)

/-- Witness for C3: a `1×1` grid holding `3 + 4i` survives the round
trip. -/
theorem cuda_copy_layout_roundtrip_witness :
    cuda_copy_1d_to_2d 1 1 1 1
      (cuda_copy_2d_to_1d 1 1 1 1 (fun _ => ⟨3, 4⟩) (fun _ => 0)) (fun _ => 0) (0, 0)
      = (fun _ => (⟨3, 4⟩ : CRat)) ((0 : ℕ), (0 : ℕ)) :=
  cuda_copy_layout_roundtrip 1 1 1 1 (by decide) (by decide) (fun _ => ⟨3, 4⟩)
    (fun _ => 0) (fun _ => 0) 0 0 (by decide) (by decide)

/-- C8: `cuda_copy_2d_to_1d` implements `out1D[iz + Nz*ir] = in2D[iz, ir]`
for every valid element (first conjunct); in particular, flattening the
`Nz=3, Nr=2` grid `g[iz, ir] = iz + 10*ir` yields the flat array
`[0, 1, 2, 10, 11, 12]`, and unflattening that with
`cuda_copy_1d_to_2d` reproduces `g` (remaining conjuncts). -/
theorem cuda_copy_2d_to_1d_formula_and_example (Nz Nr gz gr : ℕ)
    (array_2d : Grid2) (array_1d : Grid1) (flat0 : Grid1) (g0 : Grid2)
    (iz ir : ℕ) (hiz : iz < Nz) (hir : ir < Nr) (hgz : iz < gz) (hgr : ir < gr) :
    cuda_copy_2d_to_1d Nz Nr gz gr array_2d array_1d (iz + Nz * ir) = array_2d (iz, ir) ∧
    (cuda_copy_2d_to_1d 3 2 3 2 gExample flat0 0 = ⟨0, 0⟩ ∧
     cuda_copy_2d_to_1d 3 2 3 2 gExample flat0 1 = ⟨1, 0⟩ ∧
     cuda_copy_2d_to_1d 3 2 3 2 gExample flat0 2 = ⟨2, 0⟩ ∧
     cuda_copy_2d_to_1d 3 2 3 2 gExample flat0 3 = ⟨10, 0⟩ ∧
     cuda_copy_2d_to_1d 3 2 3 2 gExample flat0 4 = ⟨11, 0⟩ ∧
     cuda_copy_2d_to_1d 3 2 3 2 gExample flat0 5 = ⟨12, 0⟩) ∧
    (∀ jz jr : ℕ, jz < 3 → jr < 2 →
      cuda_copy_1d_to_2d 3 2 3 2 (cuda_copy_2d_to_1d 3 2 3 2 gExample flat0) g0 (jz, jr)
        = gExample (jz, jr)) := by
  refine ⟨cuda_copy_2d_to_1d_value Nz Nr gz gr array_2d array_1d iz ir hiz hir hgz hgr,
    ⟨?_, ?_, ?_, ?_, ?_, ?_⟩, ?_⟩
  · rw [show (0 : ℕ) = 0 + 3 * 0 by norm_num,
      cuda_copy_2d_to_1d_value 3 2 3 2 gExample flat0 0 0 (by norm_num) (by norm_num)
        (by norm_num) (by norm_num)]
    ext <;> norm_num [gExample]
  · rw [show (1 : ℕ) = 1 + 3 * 0 by norm_num,
      cuda_copy_2d_to_1d_value 3 2 3 2 gExample flat0 1 0 (by norm_num) (by norm_num)
        (by norm_num) (by norm_num)]
    ext <;> norm_num [gExample]
  · rw [show (2 : ℕ) = 2 + 3 * 0 by norm_num,
      cuda_copy_2d_to_1d_value 3 2 3 2 gExample flat0 2 0 (by norm_num) (by norm_num)
        (by norm_num) (by norm_num)]
    ext <;> norm_num [gExample]
  · rw [show (3 : ℕ) = 0 + 3 * 1 by norm_num,
      cuda_copy_2d_to_1d_value 3 2 3 2 gExample flat0 0 1 (by norm_num) (by norm_num)
        (by norm_num) (by norm_num)]
    ext <;> norm_num [gExample]
  · rw [show (4 : ℕ) = 1 + 3 * 1 by norm_num,
      cuda_copy_2d_to_1d_value 3 2 3 2 gExample flat0 1 1 (by norm_num) (by norm_num)
        (by norm_num) (by norm_num)]
    ext <;> norm_num [gExample]
  · rw [show (5 : ℕ) = 2 + 3 * 1 by norm_num,
      cuda_copy_2d_to_1d_value 3 2 3 2 gExample flat0 2 1 (by norm_num) (by norm_num)
        (by norm_num) (by norm_num)]
    ext <;> norm_num [gExample]
  · intro jz jr hjz hjr
    exact cuda_copy_layout_roundtrip 3 2 3 2 (le_refl 3) (le_refl 2) gExample flat0 g0
      jz jr hjz hjr

/-- Witness for C8 at `Nz=3, Nr=2`, element `(1, 1)`, with cleared
initial buffers. -/
theorem cuda_copy_2d_to_1d_formula_and_example_witness :
    cuda_copy_2d_to_1d 3 2 3 2 gExample (fun _ => 0) (1 + 3 * 1) = gExample (1, 1) ∧
    (cuda_copy_2d_to_1d 3 2 3 2 gExample (fun _ => 0) 0 = ⟨0, 0⟩ ∧
     cuda_copy_2d_to_1d 3 2 3 2 gExample (fun _ => 0) 1 = ⟨1, 0⟩ ∧
     cuda_copy_2d_to_1d 3 2 3 2 gExample (fun _ => 0) 2 = ⟨2, 0⟩ ∧
     cuda_copy_2d_to_1d 3 2 3 2 gExample (fun _ => 0) 3 = ⟨10, 0⟩ ∧
     cuda_copy_2d_to_1d 3 2 3 2 gExample (fun _ => 0) 4 = ⟨11, 0⟩ ∧
     cuda_copy_2d_to_1d 3 2 3 2 gExample (fun _ => 0) 5 = ⟨12, 0⟩) ∧
    (∀ jz jr : ℕ, jz < 3 → jr < 2 →
      cuda_copy_1d_to_2d 3 2 3 2 (cuda_copy_2d_to_1d 3 2 3 2 gExample (fun _ => 0))
        (fun _ => 0) (jz, jr) = gExample (jz, jr)) :=
  cuda_copy_2d_to_1d_formula_and_example 3 2 3 2 gExample (fun _ => 0) (fun _ => 0)
    (fun _ => 0) 1 1 (by decide) (by decide) (by decide) (by decide)

/-! ## C6: the bounds-guard claim -/

/-- C6 (counterexample): the claim says each copy kernel's 2-D index
space is bounded by the *source* buffer's declared extents, but the
guard of `cuda_copy_1d_to_2d` reads `array_2d.shape` — the
*destination's* extents.  With the 1-D source held fixed (constant 1)
and only the destination extents changed from `1×1` to `0×0`, worker
`(0, 0)` writes in the first case and is a no-op in the second, so the
guard is not a function of the source. -/
theorem cuda_copy_1d_to_2d_guard_counterexample :
    cuda_copy_1d_to_2d_thread 1 1 (fun _ => 1) 0 0 (fun _ => 0) (0, 0) = 1 ∧
    cuda_copy_1d_to_2d_thread 0 0 (fun _ => 1) 0 0 (fun _ => 0) (0, 0) = 0 := by
  constructor
  · simp [cuda_copy_1d_to_2d_thread, hwrite]
  · simp [cuda_copy_1d_to_2d_thread]

/-- C6 (amended): each of the three copy kernels iterates over a 2-D
index space bounded by the declared extents of its 2-D array argument
(the source for `cuda_copy_2d_to_2d` and `cuda_copy_2d_to_1d`, the
destination for `cuda_copy_1d_to_2d`), and a worker whose index is at
or beyond either extent performs no write at all — a no-op, not an
error. -/
theorem cuda_copy_guard_noop (Nz Nr iz ir : ℕ) (hout : ¬(iz < Nz ∧ ir < Nr))
    (array_in array_out : Grid2) (array_2d : Grid2) (array_1d : Grid1)
    (a1 : Grid1) (a2 : Grid2) :
    cuda_copy_2d_to_2d_thread Nz Nr array_in iz ir array_out = array_out ∧
    cuda_copy_2d_to_1d_thread Nz Nr array_2d iz ir array_1d = array_1d ∧
    cuda_copy_1d_to_2d_thread Nz Nr a1 iz ir a2 = a2 := by
  refine ⟨?_, ?_, ?_⟩ <;>
    simp [cuda_copy_2d_to_2d_thread, cuda_copy_2d_to_1d_thread,
      cuda_copy_1d_to_2d_thread, hout]

/-- Witness for the amended C6: a worker at `(5, 0)` on `2×2` extents
writes nothing. -/
theorem cuda_copy_guard_noop_witness :
    cuda_copy_2d_to_2d_thread 2 2 (fun _ => 1) 5 0 (fun _ => 0) = (fun _ => 0) ∧
    cuda_copy_2d_to_1d_thread 2 2 (fun _ => 1) 5 0 (fun _ => 0) = (fun _ => 0) ∧
    cuda_copy_1d_to_2d_thread 2 2 (fun _ => 1) 5 0 (fun _ => 0) = (fun _ => 0) :=
  cuda_copy_guard_noop 2 2 5 0 (by decide) (fun _ => 1) (fun _ => 0) (fun _ => 1)
    (fun _ => 0) (fun _ => 1) (fun _ => 0)

/-! ## C10: the frame-effect claim -/

/-- C10: the kernels write only output positions inside the guarded
index range and leave every other element unchanged.  In particular
(1) when the 1-D output of `cuda_copy_2d_to_1d` is longer than
`Nz*Nr`, its elements at flat indices `≥ Nz*Nr` keep their prior
values; (2) out-of-range positions of the `p`/`m` output buffers of
`cuda_rt_to_pm` keep their prior values; and (3) `cuda_rt_to_pm` never
writes its input buffers `r`/`t` at any position (distinct storage). -/
theorem cuda_kernels_frame_effect (Nz Nr gz gr : ℕ)
    (array_2d : Grid2) (array_1d : Grid1) (h : Loc4 → CRat)
    (l iz ir : ℕ) (hl : Nz * Nr ≤ l) (hout : ¬(iz < Nz ∧ ir < Nr)) :
    cuda_copy_2d_to_1d Nz Nr gz gr array_2d array_1d l = array_1d l ∧
    cuda_rt_to_pm Nz Nr gz gr bufR bufT bufP bufM h (bufP iz ir) = h (bufP iz ir) ∧
    cuda_rt_to_pm Nz Nr gz gr bufR bufT bufP bufM h (bufM iz ir) = h (bufM iz ir) ∧
    (∀ jz jr : ℕ,
      cuda_rt_to_pm Nz Nr gz gr bufR bufT bufP bufM h (bufR jz jr) = h (bufR jz jr)) ∧
    (∀ jz jr : ℕ,
      cuda_rt_to_pm Nz Nr gz gr bufR bufT bufP bufM h (bufT jz jr) = h (bufT jz jr)) := by
  refine ⟨cuda_copy_2d_to_1d_frame Nz Nr gz gr array_2d array_1d l hl, ?_, ?_, ?_, ?_⟩
  · apply cuda_rt_to_pm_run_frame
    intro iz' ir' hiz' hir'
    have hne : ¬(iz = iz' ∧ ir = ir') := by
      intro hc
      exact hout ⟨hc.1 ▸ hiz', hc.2 ▸ hir'⟩
    constructor <;> simp [bufP, bufM, Prod.ext_iff] <;> tauto
  · apply cuda_rt_to_pm_run_frame
    intro iz' ir' hiz' hir'
    have hne : ¬(iz = iz' ∧ ir = ir') := by
      intro hc
      exact hout ⟨hc.1 ▸ hiz', hc.2 ▸ hir'⟩
    constructor <;> simp [bufP, bufM, Prod.ext_iff] <;> tauto
  · intro jz jr
    apply cuda_rt_to_pm_run_frame
    intro iz' ir' _ _
    constructor <;> simp [bufR, bufP, bufM, Prod.ext_iff]
  · intro jz jr
    apply cuda_rt_to_pm_run_frame
    intro iz' ir' _ _
    constructor <;> simp [bufT, bufP, bufM, Prod.ext_iff]

/-- Witness for C10 at `Nz = Nr = gz = gr = 2`, flat index `17`, grid
position `(5, 0)`. -/
theorem cuda_kernels_frame_effect_witness :
    cuda_copy_2d_to_1d 2 2 2 2 (fun _ => 1) (fun _ => ⟨9, 0⟩) 17 = (fun _ => (⟨9, 0⟩ : CRat)) 17 ∧
    cuda_rt_to_pm 2 2 2 2 bufR bufT bufP bufM hExample (bufP 5 0) = hExample (bufP 5 0) ∧
    cuda_rt_to_pm 2 2 2 2 bufR bufT bufP bufM hExample (bufM 5 0) = hExample (bufM 5 0) ∧
    (∀ jz jr : ℕ,
      cuda_rt_to_pm 2 2 2 2 bufR bufT bufP bufM hExample (bufR jz jr) = hExample (bufR jz jr)) ∧
    (∀ jz jr : ℕ,
      cuda_rt_to_pm 2 2 2 2 bufR bufT bufP bufM hExample (bufT jz jr) = hExample (bufT jz jr)) :=
  cuda_kernels_frame_effect 2 2 2 2 (fun _ => 1) (fun _ => ⟨9, 0⟩) hExample 17 5 0
    (by decide) (by decide)

@[simp] theorem CRat.zero_re : (0 : CRat).re = 0 := rfl

@[simp] theorem CRat.zero_im : (0 : CRat).im = 0 := rfl

@[simp] theorem CRat.one_re : (1 : CRat).re = 1 := rfl

@[simp] theorem CRat.one_im : (1 : CRat).im = 0 := rfl

/-! ## C1, C9: the basis-transform claims -/

/-- Shared helper: over the canonical distinct-storage layout, the two
transforms are exact mutual inverses at every in-range element, in both
composition orders. -/
theorem rt_pm_roundtrip_aux (Nz Nr gz gr : ℕ) (hgz : Nz ≤ gz) (hgr : Nr ≤ gr)
    (h : Loc4 → CRat) (iz ir : ℕ) (hiz : iz < Nz) (hir : ir < Nr) :
    cuda_pm_to_rt Nz Nr gz gr bufP bufM bufR bufT
      (cuda_rt_to_pm Nz Nr gz gr bufR bufT bufP bufM h) (bufR iz ir) = h (bufR iz ir) ∧
    cuda_pm_to_rt Nz Nr gz gr bufP bufM bufR bufT
      (cuda_rt_to_pm Nz Nr gz gr bufR bufT bufP bufM h) (bufT iz ir) = h (bufT iz ir) ∧
    cuda_rt_to_pm Nz Nr gz gr bufR bufT bufP bufM
      (cuda_pm_to_rt Nz Nr gz gr bufP bufM bufR bufT h) (bufP iz ir) = h (bufP iz ir) ∧
    cuda_rt_to_pm Nz Nr gz gr bufR bufT bufP bufM
      (cuda_pm_to_rt Nz Nr gz gr bufP bufM bufR bufT h) (bufM iz ir) = h (bufM iz ir) := by
  obtain ⟨hp1, hm1⟩ := cuda_rt_to_pm_run_spec Nz Nr gz gr bufR bufT bufP bufM h
    (viewsOK_canonical_rtpm Nz Nr) iz ir hiz hir hgz hgr
  obtain ⟨hr2, ht2⟩ := cuda_pm_to_rt_run_spec Nz Nr gz gr bufP bufM bufR bufT
    (cuda_rt_to_pm Nz Nr gz gr bufR bufT bufP bufM h)
    (viewsOK_canonical_pmrt Nz Nr) iz ir hiz hir hgz hgr
  obtain ⟨hr3, ht3⟩ := cuda_pm_to_rt_run_spec Nz Nr gz gr bufP bufM bufR bufT h
    (viewsOK_canonical_pmrt Nz Nr) iz ir hiz hir hgz hgr
  obtain ⟨hp4, hm4⟩ := cuda_rt_to_pm_run_spec Nz Nr gz gr bufR bufT bufP bufM
    (cuda_pm_to_rt Nz Nr gz gr bufP bufM bufR bufT h)
    (viewsOK_canonical_rtpm Nz Nr) iz ir hiz hir hgz hgr
  refine ⟨?_, ?_, ?_, ?_⟩
  · rw [hr2, hp1, hm1]
    exact pm_sum_cancel _ _
  · rw [ht2, hp1, hm1]
    exact pm_diff_cancel _ _
  · rw [hp4, hr3, ht3]
    exact rt_p_cancel _ _
  · rw [hm4, hr3, ht3]
    exact rt_m_cancel _ _

/-- C1: for every pair of complex grids `(r, t)` (any initial heap over
distinct storage, any covering launch), `cuda_rt_to_pm` followed by
`cuda_pm_to_rt` reproduces `(r, t)` exactly at every in-range element,
and `cuda_pm_to_rt` followed by `cuda_rt_to_pm` reproduces the original
`(p, m)` exactly — over exact complex arithmetic, floating-point
rounding aside. -/
theorem cuda_transform_roundtrip (Nz Nr gz gr : ℕ) (hgz : Nz ≤ gz) (hgr : Nr ≤ gr)
    (h : Loc4 → CRat) (iz ir : ℕ) (hiz : iz < Nz) (hir : ir < Nr) :
    cuda_pm_to_rt Nz Nr gz gr bufP bufM bufR bufT
      (cuda_rt_to_pm Nz Nr gz gr bufR bufT bufP bufM h) (bufR iz ir) = h (bufR iz ir) ∧
    cuda_pm_to_rt Nz Nr gz gr bufP bufM bufR bufT
      (cuda_rt_to_pm Nz Nr gz gr bufR bufT bufP bufM h) (bufT iz ir) = h (bufT iz ir) ∧
    cuda_rt_to_pm Nz Nr gz gr bufR bufT bufP bufM
      (cuda_pm_to_rt Nz Nr gz gr bufP bufM bufR bufT h) (bufP iz ir) = h (bufP iz ir) ∧
    cuda_rt_to_pm Nz Nr gz gr bufR bufT bufP bufM
      (cuda_pm_to_rt Nz Nr gz gr bufP bufM bufR bufT h) (bufM iz ir) = h (bufM iz ir) :=
  rt_pm_roundtrip_aux Nz Nr gz gr hgz hgr h iz ir hiz hir

/-- Witness for C1 at `Nz = Nr = gz = gr = 1` on the example state. -/
theorem cuda_transform_roundtrip_witness :
    cuda_pm_to_rt 1 1 1 1 bufP bufM bufR bufT
      (cuda_rt_to_pm 1 1 1 1 bufR bufT bufP bufM hExample) (bufR 0 0) = hExample (bufR 0 0) ∧
    cuda_pm_to_rt 1 1 1 1 bufP bufM bufR bufT
      (cuda_rt_to_pm 1 1 1 1 bufR bufT bufP bufM hExample) (bufT 0 0) = hExample (bufT 0 0) ∧
    cuda_rt_to_pm 1 1 1 1 bufR bufT bufP bufM
      (cuda_pm_to_rt 1 1 1 1 bufP bufM bufR bufT hExample) (bufP 0 0) = hExample (bufP 0 0) ∧
    cuda_rt_to_pm 1 1 1 1 bufR bufT bufP bufM
      (cuda_pm_to_rt 1 1 1 1 bufP bufM bufR bufT hExample) (bufM 0 0) = hExample (bufM 0 0) :=
  cuda_transform_roundtrip 1 1 1 1 (le_refl 1) (le_refl 1) hExample 0 0
    (by decide) (by decide)

/-- C9: `cuda_rt_to_pm` produces, at every in-range element,
`p[iz, ir] = 0.5*(r[iz, ir] - i*t[iz, ir])` and
`m[iz, ir] = 0.5*(r[iz, ir] + i*t[iz, ir])`; in particular for
`Nz = Nr = 2`, `r = [[1, 2], [3, 4]]` and `t = 0` both `p` and `m`
equal `[[0.5, 1], [1.5, 2]]`, and feeding `(p, m)` through
`cuda_pm_to_rt` yields `r` unchanged and `t` all zero. -/
theorem cuda_rt_to_pm_formula_and_example (Nz Nr gz gr : ℕ) (hgz : Nz ≤ gz) (hgr : Nr ≤ gr)
    (h : Loc4 → CRat) (iz ir : ℕ) (hiz : iz < Nz) (hir : ir < Nr) :
    cuda_rt_to_pm Nz Nr gz gr bufR bufT bufP bufM h (bufP iz ir)
      = chalf * (h (bufR iz ir) - CRat.I * h (bufT iz ir)) ∧
    cuda_rt_to_pm Nz Nr gz gr bufR bufT bufP bufM h (bufM iz ir)
      = chalf * (h (bufR iz ir) + CRat.I * h (bufT iz ir)) ∧
    (cuda_rt_to_pm 2 2 2 2 bufR bufT bufP bufM hExample (bufP 0 0) = ⟨1/2, 0⟩ ∧
     cuda_rt_to_pm 2 2 2 2 bufR bufT bufP bufM hExample (bufP 0 1) = ⟨1, 0⟩ ∧
     cuda_rt_to_pm 2 2 2 2 bufR bufT bufP bufM hExample (bufP 1 0) = ⟨3/2, 0⟩ ∧
     cuda_rt_to_pm 2 2 2 2 bufR bufT bufP bufM hExample (bufP 1 1) = ⟨2, 0⟩) ∧
    (∀ jz jr : ℕ, jz < 2 → jr < 2 →
      cuda_rt_to_pm 2 2 2 2 bufR bufT bufP bufM hExample (bufM jz jr)
        = cuda_rt_to_pm 2 2 2 2 bufR bufT bufP bufM hExample (bufP jz jr)) ∧
    (∀ jz jr : ℕ, jz < 2 → jr < 2 →
      cuda_pm_to_rt 2 2 2 2 bufP bufM bufR bufT
        (cuda_rt_to_pm 2 2 2 2 bufR bufT bufP bufM hExample) (bufR jz jr)
        = hExample (bufR jz jr) ∧
      cuda_pm_to_rt 2 2 2 2 bufP bufM bufR bufT
        (cuda_rt_to_pm 2 2 2 2 bufR bufT bufP bufM hExample) (bufT jz jr) = 0) := by
  obtain ⟨hp, hm⟩ := cuda_rt_to_pm_run_spec Nz Nr gz gr bufR bufT bufP bufM h
    (viewsOK_canonical_rtpm Nz Nr) iz ir hiz hir hgz hgr
  refine ⟨hp, hm, ⟨?_, ?_, ?_, ?_⟩, ?_, ?_⟩
  · rw [(cuda_rt_to_pm_run_spec 2 2 2 2 bufR bufT bufP bufM hExample
      (viewsOK_canonical_rtpm 2 2) 0 0 (by norm_num) (by norm_num)
      (le_refl 2) (le_refl 2)).1]
    ext <;> simp [hExample, bufR, bufT] <;> norm_num
  · rw [(cuda_rt_to_pm_run_spec 2 2 2 2 bufR bufT bufP bufM hExample
      (viewsOK_canonical_rtpm 2 2) 0 1 (by norm_num) (by norm_num)
      (le_refl 2) (le_refl 2)).1]
    ext <;> simp [hExample, bufR, bufT] <;> norm_num
  · rw [(cuda_rt_to_pm_run_spec 2 2 2 2 bufR bufT bufP bufM hExample
      (viewsOK_canonical_rtpm 2 2) 1 0 (by norm_num) (by norm_num)
      (le_refl 2) (le_refl 2)).1]
    ext <;> simp [hExample, bufR, bufT] <;> norm_num
  · rw [(cuda_rt_to_pm_run_spec 2 2 2 2 bufR bufT bufP bufM hExample
      (viewsOK_canonical_rtpm 2 2) 1 1 (by norm_num) (by norm_num)
      (le_refl 2) (le_refl 2)).1]
    ext <;> simp [hExample, bufR, bufT] <;> norm_num
  · intro jz jr hjz hjr
    obtain ⟨hp', hm'⟩ := cuda_rt_to_pm_run_spec 2 2 2 2 bufR bufT bufP bufM hExample
      (viewsOK_canonical_rtpm 2 2) jz jr hjz hjr (le_refl 2) (le_refl 2)
    rw [hp', hm']
    have ht0 : hExample (bufT jz jr) = 0 := by
      simp [hExample, bufT]
    rw [ht0]
    ext <;> simp <;> ring
  · intro jz jr hjz hjr
    obtain ⟨haux1, haux2, _, _⟩ := rt_pm_roundtrip_aux 2 2 2 2 (le_refl 2) (le_refl 2)
      hExample jz jr hjz hjr
    refine ⟨haux1, ?_⟩
    rw [haux2]
    simp [hExample, bufT]

/-- Witness for C9 at `Nz = Nr = gz = gr = 2`, element `(0, 0)`, on the
example state. -/
theorem cuda_rt_to_pm_formula_and_example_witness :
    cuda_rt_to_pm 2 2 2 2 bufR bufT bufP bufM hExample (bufP 0 0)
      = chalf * (hExample (bufR 0 0) - CRat.I * hExample (bufT 0 0)) ∧
    cuda_rt_to_pm 2 2 2 2 bufR bufT bufP bufM hExample (bufM 0 0)
      = chalf * (hExample (bufR 0 0) + CRat.I * hExample (bufT 0 0)) ∧
    (cuda_rt_to_pm 2 2 2 2 bufR bufT bufP bufM hExample (bufP 0 0) = ⟨1/2, 0⟩ ∧
     cuda_rt_to_pm 2 2 2 2 bufR bufT bufP bufM hExample (bufP 0 1) = ⟨1, 0⟩ ∧
     cuda_rt_to_pm 2 2 2 2 bufR bufT bufP bufM hExample (bufP 1 0) = ⟨3/2, 0⟩ ∧
     cuda_rt_to_pm 2 2 2 2 bufR bufT bufP bufM hExample (bufP 1 1) = ⟨2, 0⟩) ∧
    (∀ jz jr : ℕ, jz < 2 → jr < 2 →
      cuda_rt_to_pm 2 2 2 2 bufR bufT bufP bufM hExample (bufM jz jr)
        = cuda_rt_to_pm 2 2 2 2 bufR bufT bufP bufM hExample (bufP jz jr)) ∧
    (∀ jz jr : ℕ, jz < 2 → jr < 2 →
      cuda_pm_to_rt 2 2 2 2 bufP bufM bufR bufT
        (cuda_rt_to_pm 2 2 2 2 bufR bufT bufP bufM hExample) (bufR jz jr)
        = hExample (bufR jz jr) ∧
      cuda_pm_to_rt 2 2 2 2 bufP bufM bufR bufT
        (cuda_rt_to_pm 2 2 2 2 bufR bufT bufP bufM hExample) (bufT jz jr) = 0) :=
  cuda_rt_to_pm_formula_and_example 2 2 2 2 (le_refl 2) (le_refl 2) hExample 0 0
    (by decide) (by decide)

/-! ## C2: the aliasing-safety claim -/

/-- C2: running `cuda_rt_to_pm` with *any* storage configuration
satisfying the per-element output-distinctness and cross-thread
disjointness contract — which includes `buffer_p` sharing storage with
`buffer_r` and `buffer_m` with `buffer_t`, or any other whole-buffer
aliasing of outputs with inputs — yields, at every in-range element,
exactly the same numerical results as running it over fully distinct
storage holding the same input values; likewise for `cuda_pm_to_rt`. -/
theorem cuda_transform_aliasing_safe {ι : Type} [DecidableEq ι]
    (Nz Nr gz gr : ℕ) (hgz : Nz ≤ gz) (hgr : Nr ≤ gr)
    (br bt bp bm : ℕ → ℕ → ι) (hok1 : viewsOK Nz Nr br bt bp bm)
    (bp2 bm2 br2 bt2 : ℕ → ℕ → ι) (hok2 : viewsOK Nz Nr bp2 bm2 br2 bt2)
    (h h2 : ι → CRat) (hc : Loc4 → CRat)
    (hinr : ∀ jz jr, jz < Nz → jr < Nr → h (br jz jr) = hc (bufR jz jr))
    (hint : ∀ jz jr, jz < Nz → jr < Nr → h (bt jz jr) = hc (bufT jz jr))
    (hinp : ∀ jz jr, jz < Nz → jr < Nr → h2 (bp2 jz jr) = hc (bufP jz jr))
    (hinm : ∀ jz jr, jz < Nz → jr < Nr → h2 (bm2 jz jr) = hc (bufM jz jr))
    (iz ir : ℕ) (hiz : iz < Nz) (hir : ir < Nr) :
    cuda_rt_to_pm Nz Nr gz gr br bt bp bm h (bp iz ir)
      = cuda_rt_to_pm Nz Nr gz gr bufR bufT bufP bufM hc (bufP iz ir) ∧
    cuda_rt_to_pm Nz Nr gz gr br bt bp bm h (bm iz ir)
      = cuda_rt_to_pm Nz Nr gz gr bufR bufT bufP bufM hc (bufM iz ir) ∧
    cuda_pm_to_rt Nz Nr gz gr bp2 bm2 br2 bt2 h2 (br2 iz ir)
      = cuda_pm_to_rt Nz Nr gz gr bufP bufM bufR bufT hc (bufR iz ir) ∧
    cuda_pm_to_rt Nz Nr gz gr bp2 bm2 br2 bt2 h2 (bt2 iz ir)
      = cuda_pm_to_rt Nz Nr gz gr bufP bufM bufR bufT hc (bufT iz ir) := by
  obtain ⟨ha1, ha2⟩ := cuda_rt_to_pm_run_spec Nz Nr gz gr br bt bp bm h hok1
    iz ir hiz hir hgz hgr
  obtain ⟨hb1, hb2⟩ := cuda_rt_to_pm_run_spec Nz Nr gz gr bufR bufT bufP bufM hc
    (viewsOK_canonical_rtpm Nz Nr) iz ir hiz hir hgz hgr
  obtain ⟨hc1, hc2⟩ := cuda_pm_to_rt_run_spec Nz Nr gz gr bp2 bm2 br2 bt2 h2 hok2
    iz ir hiz hir hgz hgr
  obtain ⟨hd1, hd2⟩ := cuda_pm_to_rt_run_spec Nz Nr gz gr bufP bufM bufR bufT hc
    (viewsOK_canonical_pmrt Nz Nr) iz ir hiz hir hgz hgr
  refine ⟨?_, ?_, ?_, ?_⟩
  · rw [ha1, hb1, hinr iz ir hiz hir, hint iz ir hiz hir]
  · rw [ha2, hb2, hinr iz ir hiz hir, hint iz ir hiz hir]
  · rw [hc1, hd1, hinp iz ir hiz hir, hinm iz ir hiz hir]
  · rw [hc2, hd2, hinp iz ir hiz hir, hinm iz ir hiz hir]

/-- Witness for C2 at `Nz = Nr = gz = gr = 1` on the example state,
with the fully aliased configurations `p := r, m := t` (forward) and
`r := p, t := m` (inverse). -/
theorem cuda_transform_aliasing_safe_witness :
    cuda_rt_to_pm 1 1 1 1 bufR bufT bufR bufT hExample (bufR 0 0)
      = cuda_rt_to_pm 1 1 1 1 bufR bufT bufP bufM hExample (bufP 0 0) ∧
    cuda_rt_to_pm 1 1 1 1 bufR bufT bufR bufT hExample (bufT 0 0)
      = cuda_rt_to_pm 1 1 1 1 bufR bufT bufP bufM hExample (bufM 0 0) ∧
    cuda_pm_to_rt 1 1 1 1 bufP bufM bufP bufM hExample (bufP 0 0)
      = cuda_pm_to_rt 1 1 1 1 bufP bufM bufR bufT hExample (bufR 0 0) ∧
    cuda_pm_to_rt 1 1 1 1 bufP bufM bufP bufM hExample (bufM 0 0)
      = cuda_pm_to_rt 1 1 1 1 bufP bufM bufR bufT hExample (bufT 0 0) :=
  cuda_transform_aliasing_safe 1 1 1 1 (le_refl 1) (le_refl 1)
    bufR bufT bufR bufT
    (by
      constructor
      · intro jz jr _ _
        simp [bufR, bufT, Prod.ext_iff]
      · intro jz jr jz' jr' h1 h2 h3 h4 hne
        have hz : jz = jz' := by omega
        have hr : jr = jr' := by omega
        exact absurd (by rw [hz, hr]) hne)
    bufP bufM bufP bufM
    (by
      constructor
      · intro jz jr _ _
        simp [bufP, bufM, Prod.ext_iff]
      · intro jz jr jz' jr' h1 h2 h3 h4 hne
        have hz : jz = jz' := by omega
        have hr : jr = jr' := by omega
        exact absurd (by rw [hz, hr]) hne)
    hExample hExample hExample
    (fun _ _ _ _ => rfl) (fun _ _ _ _ => rfl) (fun _ _ _ _ => rfl) (fun _ _ _ _ => rfl)
    0 0 (by decide) (by decide)
